import Mathlib

/-!
Verification of the Agri-sol location-analytics subsystem: a shallow
embedding of the PL/pgSQL trigger functions and helper queries found in
`STEP_3_FUNCTIONS_AND_TRIGGERS_FIXED.sql`, `LOCATION_TRACKING_SCHEMA.sql`
and `STEP_5_HELPER_FUNCTIONS_FIXED.sql`, together with proofs about
incremental aggregate maintenance, the full recomputation path, and the
query helpers.

Modelling conventions: timestamps are natural numbers (`GREATEST`/`MAX`
becomes `max`, `MIN` becomes `min`), SQL `numeric` values are rationals,
nullable columns are `Option`, and tables are association lists of rows.
The wall-clock bookkeeping columns `created_at`/`updated_at` of the two
aggregate tables (set to `NOW()` by the triggers) are not modelled.
-/

namespace Agrisol

/-- A `scan_history` row, restricted to the columns that the trigger
functions `update_location_analytics` / `update_disease_tracking` and the
rebuild function `recalculate_location_analytics` actually read. -/
structure Event where
  userId : Nat
  country : String
  province : Option String
  district : Option String
  sector : Option String
  diseaseDetected : Option String
  confidenceScore : Option ℚ
  createdAt : Nat
deriving DecidableEq, Repr

/-- The location-hierarchy key built by the nested `IF province IS NOT NULL
... IF district IS NOT NULL ... IF sector IS NOT NULL` blocks of
`update_location_analytics` (the same expression appears in
`update_disease_tracking`, in `recalculate_location_analytics` and in the
STEP 5 helper queries): the separator is the bare character `>` and a
missing `province` falls back to the sentinel `Unknown`.  Note that
`sector` is consulted only when `district` is populated, and `country` is
never consulted. -/
def locKeyOf (p d s : Option String) : String :=
  match p with
  | none => "Unknown"
  | some pv =>
    match d with
    | none => pv
    | some dv =>
      match s with
      | none => pv ++ ">" ++ dv
      | some sv => pv ++ ">" ++ dv ++ ">" ++ sv

/-- Location key of one scan event. -/
def Event.locKey (e : Event) : String :=
  locKeyOf e.province e.district e.sector

/-- The SQL condition `disease_detected = 'Healthy' OR disease_detected IS
NULL` used for the `healthy_scans` counters. -/
def Event.isHealthy (e : Event) : Bool :=
  match e.diseaseDetected with
  | none => true
  | some s => s = "Healthy"

/-- The SQL condition `disease_detected != 'Healthy' AND disease_detected
IS NOT NULL` used for the `diseased_scans` counters and the
`disease_tracking` filters. -/
def Event.isDiseased (e : Event) : Bool :=
  match e.diseaseDetected with
  | none => false
  | some s => ¬ s = "Healthy"

/-- A `location_analytics` row (STEP 3 schema), restricted to the columns
the triggers and recomputation maintain. -/
structure LocRow where
  locationHierarchy : String
  province : Option String
  district : Option String
  sector : Option String
  totalScans : Nat
  healthyScans : Nat
  diseasedScans : Nat
  uniqueUsers : Nat
  lastScanDate : Nat
deriving DecidableEq, Repr

/-- A `disease_tracking` row (STEP 3 schema). -/
structure DisRow where
  locationHierarchy : String
  province : Option String
  district : Option String
  sector : Option String
  diseaseName : String
  occurrenceCount : Nat
  severityAverage : ℚ
  firstDetected : Nat
  lastDetected : Nat
deriving DecidableEq, Repr

/-- The NULL-aware tuple match used by the `COUNT(DISTINCT user_id)`
subquery (`province = NEW.province OR (province IS NULL AND NEW.province
IS NULL)`, and likewise for `district`/`sector`) and by the `GROUP BY
province, district, sector` of `recalculate_location_analytics`. -/
def groupOf (log : List Event) (p d s : Option String) : List Event :=
  log.filter fun f => decide (f.province = p ∧ f.district = d ∧ f.sector = s)

/-- The subquery `SELECT COUNT(DISTINCT user_id) FROM scan_history WHERE
<tuple match>`. -/
def countDistinctUsers (log : List Event) (p d s : Option String) : Nat :=
  ((groupOf log p d s).map Event.userId).dedup.length

/-- Row lookup `SELECT * FROM location_analytics WHERE location_hierarchy
= key`. -/
def lookupLoc (rows : List LocRow) (k : String) : Option LocRow :=
  rows.find? fun r => decide (r.locationHierarchy = k)

/-- Row lookup `SELECT * FROM disease_tracking WHERE location_hierarchy =
key AND disease_name = name`. -/
def lookupDis (rows : List DisRow) (k dn : String) : Option DisRow :=
  rows.find? fun r => decide (r.locationHierarchy = k ∧ r.diseaseName = dn)

/-- The `INSERT INTO location_analytics ... VALUES (...)` branch of
`update_location_analytics`, merged with the immediately following
`UPDATE ... SET unique_users = (subquery)` on the freshly inserted row.
`log` is the content of `scan_history` at trigger time (the trigger is
`AFTER INSERT`, so `log` includes the event itself); only the tuple-match
count of `log` is consulted, so its order is irrelevant. -/
def freshLocRow (log : List Event) (e : Event) : LocRow :=
  { locationHierarchy := e.locKey
    province := e.province
    district := e.district
    sector := e.sector
    totalScans := 1
    healthyScans := if e.isHealthy then 1 else 0
    diseasedScans := if e.isDiseased then 1 else 0
    uniqueUsers := countDistinctUsers log e.province e.district e.sector
    lastScanDate := e.createdAt }

/-- The `UPDATE location_analytics SET ...` branch of
`update_location_analytics`: all right-hand sides read the pre-update row,
`unique_users` is recomputed from the subquery, and `last_scan_date`
becomes `GREATEST(last_scan_date, NEW.created_at)`. -/
def bumpLocRow (log : List Event) (e : Event) (r : LocRow) : LocRow :=
  { r with
    totalScans := r.totalScans + 1
    healthyScans := r.healthyScans + (if e.isHealthy then 1 else 0)
    diseasedScans := r.diseasedScans + (if e.isDiseased then 1 else 0)
    uniqueUsers := countDistinctUsers log e.province e.district e.sector
    lastScanDate := max r.lastScanDate e.createdAt }

/-- Body of `update_location_analytics()`: look the key up, then either
insert a fresh row or update every row carrying the key. -/
def updateLocationAnalytics (log : List Event) (rows : List LocRow)
    (e : Event) : List LocRow :=
  match lookupLoc rows e.locKey with
  | none => rows ++ [freshLocRow log e]
  | some _ =>
    rows.map fun r =>
      if r.locationHierarchy = e.locKey then bumpLocRow log e r else r

/-- The `INSERT INTO disease_tracking ... VALUES (...)` branch of
`update_disease_tracking` (`COALESCE(NEW.confidence_score, 0.5)`). -/
def freshDisRow (e : Event) (dn : String) : DisRow :=
  { locationHierarchy := e.locKey
    province := e.province
    district := e.district
    sector := e.sector
    diseaseName := dn
    occurrenceCount := 1
    severityAverage := e.confidenceScore.getD (1 / 2)
    firstDetected := e.createdAt
    lastDetected := e.createdAt }

/-- The `UPDATE disease_tracking SET ...` branch: the online-mean formula
reads the pre-update `severity_average` and `occurrence_count`,
`last_detected` becomes `GREATEST(last_detected, NEW.created_at)`, and
`first_detected` is left untouched. -/
def bumpDisRow (e : Event) (r : DisRow) : DisRow :=
  { r with
    occurrenceCount := r.occurrenceCount + 1
    severityAverage :=
      (r.severityAverage * (r.occurrenceCount : ℚ)
        + e.confidenceScore.getD (1 / 2)) / ((r.occurrenceCount : ℚ) + 1)
    lastDetected := max r.lastDetected e.createdAt }

/-- Body of `update_disease_tracking()`: return unchanged when
`disease_detected IS NULL OR disease_detected = 'Healthy'`, otherwise
upsert the `(location_hierarchy, disease_name)` row. -/
def updateDiseaseTracking (rows : List DisRow) (e : Event) : List DisRow :=
  match e.diseaseDetected with
  | none => rows
  | some dn =>
    if dn = "Healthy" then rows
    else
      match lookupDis rows e.locKey dn with
      | none => rows ++ [freshDisRow e dn]
      | some _ =>
        rows.map fun r =>
          if r.locationHierarchy = e.locKey ∧ r.diseaseName = dn
          then bumpDisRow e r else r

/-- The aggregate store: the two tables maintained by the triggers. -/
structure AggState where
  locs : List LocRow
  dis : List DisRow
deriving DecidableEq, Repr

/-- The empty aggregate store. -/
def emptyState : AggState := ⟨[], []⟩

/-- Effect of inserting one `scan_history` row: both `AFTER INSERT`
triggers fire (they touch disjoint tables, so their relative order is
immaterial).  `log` is the content of `scan_history` after the insert. -/
def applyEvent (log : List Event) (st : AggState) (e : Event) : AggState :=
  { locs := updateLocationAnalytics log st.locs e
    dis := updateDiseaseTracking st.dis e }

/-- Incremental maintenance over a newest-first event log: the head of the
list is the most recently inserted event, and each event was applied with
the `scan_history` contents of its time (itself plus everything older). -/
def applyAllR : List Event → AggState
  | [] => emptyState
  | e :: rest => applyEvent (e :: rest) (applyAllR rest) e

/-- Incremental maintenance applied to every event of a log in arrival
order (oldest first), starting from the empty store. -/
def applyAll (log : List Event) : AggState :=
  applyAllR log.reverse

/-- `MAX(created_at)` over a list of events (`0` for the empty list, which
never arises for a SQL group). -/
def maxCreated : List Event → Nat
  | [] => 0
  | e :: rest => max e.createdAt (maxCreated rest)

/-- `MIN(created_at)` over a nonempty list of events. -/
def minCreated : List Event → Nat
  | [] => 0
  | [e] => e.createdAt
  | e :: f :: rest => min e.createdAt (minCreated (f :: rest))

/-- The `location_analytics` row that `recalculate_location_analytics`
produces for the `GROUP BY province, district, sector` group of the tuple
`(p, d, s)`:  `COUNT(*)`, the two `COUNT(*) FILTER` columns,
`COUNT(DISTINCT user_id)` and `MAX(created_at)`. -/
def recLocRow (log : List Event) (p d s : Option String) : LocRow :=
  { locationHierarchy := locKeyOf p d s
    province := p
    district := d
    sector := s
    totalScans := (groupOf log p d s).length
    healthyScans := ((groupOf log p d s).filter Event.isHealthy).length
    diseasedScans := ((groupOf log p d s).filter Event.isDiseased).length
    uniqueUsers := countDistinctUsers log p d s
    lastScanDate := maxCreated (groupOf log p d s) }

/-- The `GROUP BY province, district, sector, disease_detected` group of
the `disease_tracking` rebuild (which first filters
`disease_detected IS NOT NULL AND disease_detected != 'Healthy'`). -/
def disGroupOf (log : List Event) (p d s : Option String) (dn : String) :
    List Event :=
  log.filter fun f =>
    decide (f.province = p ∧ f.district = d ∧ f.sector = s
      ∧ f.diseaseDetected = some dn)

/-- The `disease_tracking` row that `recalculate_location_analytics`
produces for the group of tuple `(p, d, s)` and disease `dn`:
`COUNT(*)`, `AVG(COALESCE(confidence_score, 0.5))`, `MIN(created_at)`
and `MAX(created_at)`. -/
def recDisRow (log : List Event) (p d s : Option String) (dn : String) :
    DisRow :=
  { locationHierarchy := locKeyOf p d s
    province := p
    district := d
    sector := s
    diseaseName := dn
    occurrenceCount := (disGroupOf log p d s dn).length
    severityAverage :=
      ((disGroupOf log p d s dn).map
        fun f => f.confidenceScore.getD (1 / 2)).sum
        / ((disGroupOf log p d s dn).length : ℚ)
    firstDetected := minCreated (disGroupOf log p d s dn)
    lastDetected := maxCreated (disGroupOf log p d s dn) }

/-- Same row as `recDisRow`, except that `first_detected` is taken from
the group member that arrived first (the last element of a newest-first
group).  This is the value the incremental trigger path actually stores;
it coincides with `MIN(created_at)` exactly when arrival order respects
`created_at` order. -/
def firstArrivalCreated (g : List Event) : Nat :=
  match g.getLast? with
  | none => 0
  | some e => e.createdAt

/-- Incremental-path variant of `recDisRow` over a newest-first group. -/
def recDisRowArr (log : List Event) (p d s : Option String) (dn : String) :
    DisRow :=
  { locationHierarchy := locKeyOf p d s
    province := p
    district := d
    sector := s
    diseaseName := dn
    occurrenceCount := (disGroupOf log p d s dn).length
    severityAverage :=
      ((disGroupOf log p d s dn).map
        fun f => f.confidenceScore.getD (1 / 2)).sum
        / ((disGroupOf log p d s dn).length : ℚ)
    firstDetected := firstArrivalCreated (disGroupOf log p d s dn)
    lastDetected := maxCreated (disGroupOf log p d s dn) }

/-- Key injectivity over the tuples occurring in a log: no two events with
distinct `(province, district, sector)` tuples share a derived location
key.  (This can fail: without a `district` the key derivation ignores
`sector`, so `(A, NULL, S1)` and `(A, NULL, S2)` both derive key `A`.) -/
def keyInjective (l : List Event) : Prop :=
  ∀ e ∈ l, ∀ f ∈ l, e.locKey = f.locKey →
    e.province = f.province ∧ e.district = f.district ∧ e.sector = f.sector

/-- Arrival order respects `created_at` order: each event's timestamp is
at most every later-arriving event's timestamp. -/
def sortedByArrival (l : List Event) : Prop :=
  l.Pairwise fun a b => a.createdAt ≤ b.createdAt

instance (l : List Event) : Decidable (keyInjective l) := by
  unfold keyInjective
  infer_instance

instance (l : List Event) : Decidable (sortedByArrival l) := by
  unfold sortedByArrival
  infer_instance

/-- The list of distinct location tuples occurring in a log (the groups of
the first `GROUP BY` of `recalculate_location_analytics`). -/
def tupleList (log : List Event) :
    List (Option String × Option String × Option String) :=
  (log.map fun e => (e.province, e.district, e.sector)).dedup

/-- The `location_analytics` table rebuilt by
`recalculate_location_analytics` (one row per distinct tuple group). -/
def recomputeLocs (log : List Event) : List LocRow :=
  (tupleList log).map fun t => recLocRow log t.1 t.2.1 t.2.2

/-- The distinct `(tuple, disease)` groups of the `disease_tracking`
rebuild. -/
def disGroupList (log : List Event) :
    List ((Option String × Option String × Option String) × String) :=
  ((log.filter Event.isDiseased).map fun e =>
    ((e.province, e.district, e.sector), e.diseaseDetected.getD "")).dedup

/-- The `disease_tracking` table rebuilt by
`recalculate_location_analytics`. -/
def recomputeDis (log : List Event) : List DisRow :=
  (disGroupList log).map fun t => recDisRow log t.1.1 t.1.2.1 t.1.2.2 t.2

/-- Full recomputation `recalculate_location_analytics()`: delete both
aggregate tables and rebuild them from `scan_history`. -/
def recomputeState (log : List Event) : AggState :=
  ⟨recomputeLocs log, recomputeDis log⟩

/-- Reachable aggregate stores: the empty store, followed by any sequence
of incremental applications (the log argument is newest-first and grows by
one event per step), with full recomputations allowed at any point. -/
inductive Reachable : List Event → AggState → Prop
  | init : Reachable [] emptyState
  | step {l st e} : Reachable l st → Reachable (e :: l) (applyEvent (e :: l) st e)
  | recompute {l st} : Reachable l st → Reachable l (recomputeState l)

/-- Value of `total_scans` at a key (`0` when the row is absent). -/
def locTotal (st : AggState) (k : String) : Nat :=
  ((lookupLoc st.locs k).map LocRow.totalScans).getD 0

/-- Value of `healthy_scans` at a key (`0` when the row is absent). -/
def locHealthy (st : AggState) (k : String) : Nat :=
  ((lookupLoc st.locs k).map LocRow.healthyScans).getD 0

/-- Value of `diseased_scans` at a key (`0` when the row is absent). -/
def locDiseased (st : AggState) (k : String) : Nat :=
  ((lookupLoc st.locs k).map LocRow.diseasedScans).getD 0

/-- `ROUND(x, 2)` of PostgreSQL on a nonnegative `numeric` value: round
half away from zero to two decimal places (all uses in this development
are on nonnegative values, where this equals `floor(x * 100 + 1/2) /
100`). -/
def round2 (x : ℚ) : ℚ :=
  ((⌊x * 100 + 1 / 2⌋ : ℤ) : ℚ) / 100

/-- The `disease_rate` expression of `get_location_leaderboard` /
`get_location_analytics_by_level` (STEP 5): `ROUND((disease_scans::NUMERIC
/ total_scans::NUMERIC) * 100, 2)` when `total_scans > 0`, else `0`. -/
def diseaseRate (total diseased : Nat) : ℚ :=
  if 0 < total then round2 ((diseased : ℚ) / (total : ℚ) * 100) else 0

/-- Stable insertion for a descending sort by `total_scans`: `r` (which
precedes `x :: xs` in store order) is placed before the first
already-placed row whose `total_scans` does not exceed its own, so rows
with equal `total_scans` keep their store order. -/
def insertDesc (r : LocRow) : List LocRow → List LocRow
  | [] => [r]
  | x :: xs =>
    if x.totalScans ≤ r.totalScans then r :: x :: xs
    else x :: insertDesc r xs

/-- Stable sort by `total_scans` descending. -/
def sortByScansDesc : List LocRow → List LocRow
  | [] => []
  | x :: xs => insertDesc x (sortByScansDesc xs)

/-- The STEP 5 `get_location_leaderboard` query over the STEP 3
`location_analytics` table: `WHERE total_scans > 0 ORDER BY total_scans
DESC LIMIT limit_count`.  The `ORDER BY` names no secondary sort key, so
SQL leaves the relative order of equal-`total_scans` rows unspecified; the
embedding realizes one admissible execution, a stable descending sort over
the table's row order. -/
def getLocationLeaderboard (rows : List LocRow) (limit : Nat) :
    List LocRow :=
  (sortByScansDesc (rows.filter fun r => decide (0 < r.totalScans))).take limit

/-- A `scan_history` row as read by the `LOCATION_TRACKING_SCHEMA.sql`
variant of the triggers and by `refresh_location_analytics` (these key
everything by the `location_string` column and use the non-nullable
`predicted_disease` column). -/
structure SEvent where
  userId : Nat
  cropType : String
  predictedDisease : String
  locationString : String
  country : String
  province : Option String
  district : Option String
  sector : Option String
  createdAt : Nat
deriving DecidableEq, Repr

/-- A `location_analytics` row of the `LOCATION_TRACKING_SCHEMA.sql`
schema, restricted to the columns the trigger and
`refresh_location_analytics` maintain.  Column defaults are `0` for every
counter and percentage. -/
structure SLocRow where
  locationString : String
  country : String
  province : Option String
  district : Option String
  sector : Option String
  totalScans : Nat
  totalUsers : Nat
  healthyScans : Nat
  diseaseScans : Nat
  scansLast7 : Nat
  scansLast30 : Nat
  activeUsers7 : Nat
  activeUsers30 : Nat
  healthyPercentage : ℚ
  growthRate7 : ℚ
  growthRate30 : ℚ
  lastScanAt : Option Nat
deriving DecidableEq, Repr

/-- The SQL pattern match `predicted_disease ILIKE '%healthy%'`:
case-insensitive substring containment of `healthy` (the column value is
lowercased character-wise and the all-lowercase pattern searched as an
infix). -/
def ilikeHealthy (s : String) : Bool :=
  decide ("healthy".toList <:+: s.toList.map Char.toLower)

/-- The schema-variant trigger `update_location_analytics()` (an
`INSERT ... ON CONFLICT (location_string) DO UPDATE`): inserted rows get
the column defaults for every column absent from the `INSERT` list (in
particular `healthy_percentage = 0`); the conflict branch increments the
three counters, sets `last_scan_at = NEW.created_at`, and recomputes
`healthy_percentage = ROUND((healthy_scans + inc) * 100.0 / (total_scans
+ 1), 2)` from the pre-update values. -/
def sUpdateLocationAnalytics (rows : List SLocRow) (e : SEvent) :
    List SLocRow :=
  match rows.find? fun r => decide (r.locationString = e.locationString) with
  | none =>
    rows ++ [{ locationString := e.locationString
               country := e.country
               province := e.province
               district := e.district
               sector := e.sector
               totalScans := 1
               totalUsers := 0
               healthyScans := if ilikeHealthy e.predictedDisease then 1 else 0
               diseaseScans := if ilikeHealthy e.predictedDisease then 0 else 1
               scansLast7 := 0
               scansLast30 := 0
               activeUsers7 := 0
               activeUsers30 := 0
               healthyPercentage := 0
               growthRate7 := 0
               growthRate30 := 0
               lastScanAt := some e.createdAt }]
  | some _ =>
    rows.map fun r =>
      if r.locationString = e.locationString then
        { r with
          totalScans := r.totalScans + 1
          healthyScans := r.healthyScans
            + (if ilikeHealthy e.predictedDisease then 1 else 0)
          diseaseScans := r.diseaseScans
            + (if ilikeHealthy e.predictedDisease then 0 else 1)
          lastScanAt := some e.createdAt
          healthyPercentage := round2
            (((r.healthyScans
                + (if ilikeHealthy e.predictedDisease then 1 else 0) : Nat) : ℚ)
              * 100 / ((r.totalScans : ℚ) + 1)) }
      else r

/-- Incremental maintenance of the schema-variant table over a
newest-first event log. -/
def sApplyAllR : List SEvent → List SLocRow
  | [] => []
  | e :: rest => sUpdateLocationAnalytics (sApplyAllR rest) e

/-- Seconds in the `INTERVAL '7 days'` window. -/
def week : Nat := 604800

/-- Seconds in the `INTERVAL '30 days'` window. -/
def month30 : Nat := 2592000

/-- The window test `created_at >= NOW() - INTERVAL ...`, written without
truncated subtraction: `t ≥ now - w ↔ now ≤ t + w`. -/
def inWindow (now w t : Nat) : Bool :=
  decide (now ≤ t + w)

/-- First `UPDATE` statement of `refresh_location_analytics()`: recompute
`total_users`, the two active-user distinct counts and the two windowed
scan counts of every row from `scan_history`, restricted to the row's
`location_string` and the time window. -/
def refreshPass1 (log : List SEvent) (now : Nat) (rows : List SLocRow) :
    List SLocRow :=
  rows.map fun r =>
    { r with
      totalUsers :=
        (((log.filter fun f => decide (f.locationString = r.locationString)).map
          SEvent.userId).dedup).length
      activeUsers7 :=
        (((log.filter fun f => decide (f.locationString = r.locationString)
            && inWindow now week f.createdAt).map SEvent.userId).dedup).length
      activeUsers30 :=
        (((log.filter fun f => decide (f.locationString = r.locationString)
            && inWindow now month30 f.createdAt).map SEvent.userId).dedup).length
      scansLast7 :=
        ((log.filter fun f => decide (f.locationString = r.locationString)
          && inWindow now week f.createdAt)).length
      scansLast30 :=
        ((log.filter fun f => decide (f.locationString = r.locationString)
          && inWindow now month30 f.createdAt)).length }

/-- Second `UPDATE` statement of `refresh_location_analytics()`: compute
the growth rates from the just-refreshed counters, with the
`(total_scans - scans_last_N_days) > 0` guard and `ELSE 0`. -/
def refreshPass2 (rows : List SLocRow) : List SLocRow :=
  rows.map fun r =>
    { r with
      growthRate7 :=
        if r.scansLast7 < r.totalScans then
          round2 ((r.scansLast7 : ℚ)
            / ((r.totalScans : ℚ) - (r.scansLast7 : ℚ)) * 100)
        else 0
      growthRate30 :=
        if r.scansLast30 < r.totalScans then
          round2 ((r.scansLast30 : ℚ)
            / ((r.totalScans : ℚ) - (r.scansLast30 : ℚ)) * 100)
        else 0 }

/-- `refresh_location_analytics()`: the two `UPDATE` passes in order. -/
def refreshLocationAnalytics (log : List SEvent) (now : Nat)
    (rows : List SLocRow) : List SLocRow :=
  refreshPass2 (refreshPass1 log now rows)

/-- Reachable states of the schema-variant `location_analytics` table:
empty table, trigger steps (newest-first log), and
`refresh_location_analytics` runs at arbitrary wall-clock times. -/
inductive SReachable : List SEvent → List SLocRow → Prop
  | init : SReachable [] []
  | step {l st e} : SReachable l st →
      SReachable (e :: l) (sUpdateLocationAnalytics st e)
  | refresh {l st} (now : Nat) : SReachable l st →
      SReachable l (refreshLocationAnalytics l now st)

/-- Concrete diseased event, arriving first with the later timestamp. -/
def evOut1 : Event :=
  ⟨1, "Rwanda", some "P", none, none, some "Blight", some (9 / 10), 5⟩

/-- Concrete diseased event, arriving second with the earlier timestamp. -/
def evOut2 : Event :=
  ⟨2, "Rwanda", some "P", none, none, some "Blight", some (7 / 10), 3⟩

/-- An event log in arrival order whose timestamps are out of order. -/
def logOut : List Event := [evOut1, evOut2]

/-- Healthy scan by user 1 at tuple `(A, NULL, S1)`. -/
def evCol1 : Event := ⟨1, "Rwanda", some "A", none, some "S1", none, none, 1⟩

/-- Healthy scan by user 2 at tuple `(A, NULL, S1)`. -/
def evCol2 : Event := ⟨2, "Rwanda", some "A", none, some "S1", none, none, 2⟩

/-- Healthy scan by user 3 at tuple `(A, NULL, S2)`: without a `district`
the key derivation ignores `sector`, so this tuple collides on key `A`
with the two events above. -/
def evCol3 : Event := ⟨3, "Rwanda", some "A", none, some "S2", none, none, 3⟩

/-- Arrival-order log exhibiting a key collision between distinct location
tuples. -/
def logCol : List Event := [evCol1, evCol2, evCol3]

/-- A single concrete scan event. -/
def evOne : Event :=
  ⟨7, "Rwanda", some "Q", some "D", none, some "Rust", some (1 / 2), 10⟩

/-- Two leaderboard rows with equal `total_scans`, stored with the
lexically larger key first. -/
def rowB : LocRow := ⟨"B", some "B", none, none, 5, 3, 2, 2, 40⟩

/-- Companion row for `rowB`, lexically smaller key. -/
def rowA : LocRow := ⟨"A", some "A", none, none, 5, 5, 0, 1, 50⟩

/-- Schema-variant events: three old scans and one recent scan at the same
`location_string`, so that one of four scans falls in the 7-day window. -/
def sevOld1 : SEvent := ⟨1, "Maize", "Blight", "L", "Rwanda", some "P", none, none, 0⟩

/-- Second old scan. -/
def sevOld2 : SEvent := ⟨2, "Maize", "Blight", "L", "Rwanda", some "P", none, none, 0⟩

/-- Third old scan. -/
def sevOld3 : SEvent := ⟨3, "Maize", "Blight", "L", "Rwanda", some "P", none, none, 0⟩

/-- The one recent scan. -/
def sevNew : SEvent := ⟨4, "Maize", "Healthy Leaf", "L", "Rwanda", some "P", none, none, 1000⟩

/-- Newest-first schema-variant log of the four scans above. -/
def sLog4 : List SEvent := [sevNew, sevOld3, sevOld2, sevOld1]

/-- A refresh time at which exactly `sevNew` is inside the 7-day window. -/
def sNow : Nat := week + 1000

/-- The row the schema-variant trigger inserts for `sevNew` into an empty
table. -/
def rIns : SLocRow :=
  { locationString := "L"
    country := "Rwanda"
    province := some "P"
    district := none
    sector := none
    totalScans := 1
    totalUsers := 0
    healthyScans := 1
    diseaseScans := 0
    scansLast7 := 0
    scansLast30 := 0
    activeUsers7 := 0
    activeUsers30 := 0
    healthyPercentage := 0
    growthRate7 := 0
    growthRate30 := 0
    lastScanAt := some 1000 }

/-- The row above after `refresh_location_analytics` at time `sNow`. -/
def rW6 : SLocRow :=
  { rIns with
    totalUsers := 1
    scansLast7 := 1
    scansLast30 := 1
    activeUsers7 := 1
    activeUsers30 := 1 }

/-- A two-event arrival-order log with injective keys and sorted
timestamps. -/
def logW : List Event :=
  [⟨1, "Rwanda", some "P", some "D", none, some "Blight", some (9 / 10), 1⟩,
   ⟨2, "Rwanda", some "P", none, none, none, none, 2⟩]

/-- Three diseased scans at one location with confidence scores
`0.9, 0.7, 0.8`, in arrival order. -/
def esW : List Event :=
  [⟨1, "Rwanda", some "E", some "N", none, some "Early Blight", some (9 / 10), 1⟩,
   ⟨2, "Rwanda", some "E", some "N", none, some "Early Blight", some (7 / 10), 2⟩,
   ⟨3, "Rwanda", some "E", some "N", none, some "Early Blight", some (8 / 10), 3⟩]

end Agrisol

namespace Agrisol

theorem find?_map_invariant {α : Type} (m : α → α) (p : α → Bool)
    (hm : ∀ a, p (m a) = p a) :
    ∀ rows : List α, (rows.map m).find? p = (rows.find? p).map m := by
  intro rows
  induction rows with
  | nil => rfl
  | cons x xs ih =>
    by_cases h : p x = true
    · rw [List.map_cons, List.find?_cons_of_pos _ (by rw [hm]; exact h),
        List.find?_cons_of_pos _ h]
      rfl
    · rw [List.map_cons, List.find?_cons_of_neg _ (by rw [hm]; simpa using h),
        List.find?_cons_of_neg _ (by simpa using h), ih]

theorem bumpLocRow_key (log : List Event) (e : Event) (r : LocRow) :
    (bumpLocRow log e r).locationHierarchy = r.locationHierarchy := rfl

theorem bumpDisRow_key (e : Event) (r : DisRow) :
    (bumpDisRow e r).locationHierarchy = r.locationHierarchy := rfl

theorem bumpDisRow_name (e : Event) (r : DisRow) :
    (bumpDisRow e r).diseaseName = r.diseaseName := rfl

theorem lookupLoc_update_self (log : List Event) (rows : List LocRow)
    (e : Event) :
    lookupLoc (updateLocationAnalytics log rows e) e.locKey =
      some ((lookupLoc rows e.locKey).elim (freshLocRow log e)
        (fun r => bumpLocRow log e r)) := by
  rcases h : lookupLoc rows e.locKey with _ | r0
  · rw [updateLocationAnalytics, h]
    unfold lookupLoc at h ⊢
    rw [List.find?_append, h, Option.none_or]
    simp [freshLocRow]
  · rw [updateLocationAnalytics, h]
    unfold lookupLoc at h ⊢
    rw [find?_map_invariant _ _ (fun r => by
      by_cases hr : r.locationHierarchy = e.locKey <;>
        simp [hr, bumpLocRow_key]), h]
    have hk : r0.locationHierarchy = e.locKey := by
      have := List.find?_some h
      simpa using this
    simp [hk]

theorem lookupLoc_update_other (log : List Event) (rows : List LocRow)
    (e : Event) {k : String} (hk : k ≠ e.locKey) :
    lookupLoc (updateLocationAnalytics log rows e) k = lookupLoc rows k := by
  rcases h : lookupLoc rows e.locKey with _ | r0
  · rw [updateLocationAnalytics, h]
    unfold lookupLoc
    rw [List.find?_append]
    have hnone : List.find? (fun r => decide (r.locationHierarchy = k))
        [freshLocRow log e] = none := by
      simp only [List.find?_singleton, freshLocRow]
      simp only [decide_eq_true_eq]
      rw [if_neg (fun h => hk (Eq.symm h))]
    rw [hnone, Option.or_none]
  · rw [updateLocationAnalytics, h]
    unfold lookupLoc
    rw [find?_map_invariant _ _ (fun r => by
      by_cases hr : r.locationHierarchy = e.locKey <;>
        simp [hr, bumpLocRow_key])]
    rcases h2 : List.find? (fun r => decide (r.locationHierarchy = k)) rows
      with _ | r1
    · rw [h2]; rfl
    · have hk1 : r1.locationHierarchy = k := by
        have := List.find?_some h2
        simpa using this
      rw [h2]
      have hne : ¬ r1.locationHierarchy = e.locKey := by rw [hk1]; exact hk
      simp [hne]

theorem updateDiseaseTracking_healthy (rows : List DisRow) (e : Event)
    (he : e.isHealthy = true) : updateDiseaseTracking rows e = rows := by
  unfold updateDiseaseTracking
  rcases h : e.diseaseDetected with _ | s
  · rfl
  · have : s = "Healthy" := by
      unfold Event.isHealthy at he
      rw [h] at he
      simpa using he
    simp [this]

theorem isDiseased_eq_not_isHealthy (e : Event) :
    e.isDiseased = !e.isHealthy := by
  unfold Event.isDiseased Event.isHealthy
  rcases e.diseaseDetected with _ | s
  · rfl
  · by_cases h : s = "Healthy" <;> simp [h]

theorem length_filter_partition {α : Type} (p : α → Bool) (l : List α) :
    (l.filter p).length + (l.filter fun a => !(p a)).length = l.length := by
  induction l with
  | nil => rfl
  | cons x xs ih =>
    cases h : p x <;> simp [List.filter_cons, h] <;> omega

theorem lookupDis_update_self (rows : List DisRow) (e : Event) (dn : String)
    (hd : e.diseaseDetected = some dn) (hn : dn ≠ "Healthy") :
    lookupDis (updateDiseaseTracking rows e) e.locKey dn =
      some ((lookupDis rows e.locKey dn).elim (freshDisRow e dn)
        (fun r => bumpDisRow e r)) := by
  rcases h : lookupDis rows e.locKey dn with _ | r0
  · rw [updateDiseaseTracking, hd]
    simp only [hn, if_false, h]
    unfold lookupDis at h ⊢
    rw [List.find?_append, h, Option.none_or]
    simp [freshDisRow]
  · rw [updateDiseaseTracking, hd]
    simp only [hn, if_false, h]
    unfold lookupDis at h ⊢
    rw [find?_map_invariant _ _ (fun r => by
      by_cases hr : r.locationHierarchy = e.locKey ∧ r.diseaseName = dn <;>
        simp [hr, bumpDisRow_key, bumpDisRow_name]), h]
    have hk : r0.locationHierarchy = e.locKey ∧ r0.diseaseName = dn := by
      have := List.find?_some h
      simpa using this
    simp [hk]

theorem lookupDis_update_other (rows : List DisRow) (e : Event) (dn : String)
    (hd : e.diseaseDetected = some dn) (hn : dn ≠ "Healthy")
    {k dm : String} (hk : ¬(k = e.locKey ∧ dm = dn)) :
    lookupDis (updateDiseaseTracking rows e) k dm = lookupDis rows k dm := by
  rcases h : lookupDis rows e.locKey dn with _ | r0
  · rw [updateDiseaseTracking, hd]
    simp only [hn, if_false, h]
    unfold lookupDis
    rw [List.find?_append]
    have hnone : List.find?
        (fun r => decide (r.locationHierarchy = k ∧ r.diseaseName = dm))
        [freshDisRow e dn] = none := by
      simp only [List.find?_singleton, freshDisRow]
      simp only [decide_eq_true_eq]
      rw [if_neg (fun hc => hk ⟨Eq.symm hc.1, Eq.symm hc.2⟩)]
    rw [hnone, Option.or_none]
  · rw [updateDiseaseTracking, hd]
    simp only [hn, if_false, h]
    unfold lookupDis
    rw [find?_map_invariant _ _ (fun r => by
      by_cases hr : r.locationHierarchy = e.locKey ∧ r.diseaseName = dn <;>
        simp [hr, bumpDisRow_key, bumpDisRow_name])]
    rcases h2 : List.find?
        (fun r => decide (r.locationHierarchy = k ∧ r.diseaseName = dm)) rows
      with _ | r1
    · rw [h2]; rfl
    · have hk1 : r1.locationHierarchy = k ∧ r1.diseaseName = dm := by
        have := List.find?_some h2
        simpa using this
      rw [h2]
      have hne : ¬(r1.locationHierarchy = e.locKey ∧ r1.diseaseName = dn) := by
        rw [hk1.1, hk1.2]; exact hk
      simp [hne]

theorem locTotal_applyEvent (log : List Event) (st : AggState) (e : Event) :
    locTotal (applyEvent log st e) e.locKey = locTotal st e.locKey + 1 := by
  unfold locTotal applyEvent
  rw [lookupLoc_update_self]
  rcases h : lookupLoc st.locs e.locKey with _ | r0 <;>
    simp [h, freshLocRow, bumpLocRow]

theorem locHealthy_applyEvent (log : List Event) (st : AggState) (e : Event) :
    locHealthy (applyEvent log st e) e.locKey
      = locHealthy st e.locKey + (if e.isHealthy then 1 else 0) := by
  unfold locHealthy applyEvent
  rw [lookupLoc_update_self]
  rcases h : lookupLoc st.locs e.locKey with _ | r0 <;>
    simp [h, freshLocRow, bumpLocRow]

theorem locDiseased_applyEvent (log : List Event) (st : AggState) (e : Event) :
    locDiseased (applyEvent log st e) e.locKey
      = locDiseased st e.locKey + (if e.isDiseased then 1 else 0) := by
  unfold locDiseased applyEvent
  rw [lookupLoc_update_self]
  rcases h : lookupLoc st.locs e.locKey with _ | r0 <;>
    simp [h, freshLocRow, bumpLocRow]

theorem ite_isDiseased_flip (e : Event) :
    (if e.isDiseased then (1 : Nat) else 0) = (if e.isHealthy then 0 else 1) := by
  rw [isDiseased_eq_not_isHealthy]
  cases e.isHealthy <;> rfl

theorem counts_invariant {l : List Event} {st : AggState}
    (h : Reachable l st) :
    ∀ r ∈ st.locs, r.healthyScans + r.diseasedScans = r.totalScans := by
  induction h with
  | init => intro r hr; cases hr
  | @step l st e hprev ih =>
    intro r hr
    simp only [applyEvent] at hr
    rcases hlk : lookupLoc st.locs e.locKey with _ | r0
    · rw [updateLocationAnalytics, hlk] at hr
      rcases List.mem_append.mp hr with hmem | hmem
      · exact ih r hmem
      · rcases List.mem_singleton.mp hmem with rfl
        have hd := isDiseased_eq_not_isHealthy e
        unfold freshLocRow
        cases hh : e.isHealthy <;> simp [hh, hd]
    · rw [updateLocationAnalytics, hlk] at hr
      rcases List.mem_map.mp hr with ⟨r1, hr1, rfl⟩
      have hcount := ih r1 hr1
      by_cases hcond : r1.locationHierarchy = e.locKey
      · rw [if_pos hcond]
        unfold bumpLocRow
        cases hh : e.isHealthy <;>
          simp [hh, isDiseased_eq_not_isHealthy e] <;> omega
      · rw [if_neg hcond]
        exact hcount
  | @recompute l st hprev ih =>
    intro r hr
    rcases List.mem_map.mp hr with ⟨t, ht, rfl⟩
    unfold recLocRow
    have hpart := length_filter_partition Event.isHealthy (groupOf l t.1 t.2.1 t.2.2)
    have hfil : (groupOf l t.1 t.2.1 t.2.2).filter Event.isDiseased
        = (groupOf l t.1 t.2.1 t.2.2).filter fun f => !(Event.isHealthy f) :=
      List.filter_congr fun a _ => isDiseased_eq_not_isHealthy a
    simp only []
    rw [hfil]
    exact hpart

/-- C2: for every reachable aggregate store (empty store followed by any
sequence of applied scan events, with full recomputations allowed in
between), every `location_analytics` row satisfies `healthy_scans +
diseased_scans = total_scans`; moreover each applied event increments the
affected row's `total_scans` by exactly 1 and exactly one of
`healthy_scans` / `diseased_scans` by exactly 1. -/
theorem c2_counts_always_consistent :
    (∀ (l : List Event) (st : AggState), Reachable l st →
      ∀ r ∈ st.locs, r.healthyScans + r.diseasedScans = r.totalScans)
    ∧ (∀ (log : List Event) (st : AggState) (e : Event),
        locTotal (applyEvent log st e) e.locKey = locTotal st e.locKey + 1
        ∧ locHealthy (applyEvent log st e) e.locKey
            = locHealthy st e.locKey + (if e.isHealthy then 1 else 0)
        ∧ locDiseased (applyEvent log st e) e.locKey
            = locDiseased st e.locKey + (if e.isHealthy then 0 else 1)) := by
  refine ⟨fun l st h => counts_invariant h, fun log st e =>
    ⟨locTotal_applyEvent log st e, locHealthy_applyEvent log st e, ?_⟩⟩
  rw [locDiseased_applyEvent log st e, ite_isDiseased_flip]

theorem c2_counts_always_consistent_witness :
    ∀ r ∈ (applyEvent [evOne] emptyState evOne).locs,
      r.healthyScans + r.diseasedScans = r.totalScans :=
  c2_counts_always_consistent.1 [evOne] _ (Reachable.step Reachable.init)

/-- C3 counterexample: the key derived for province `Northern Province`
and district `Musanze` is `Northern Province>Musanze` — the separator in
the code is the bare `>` character, not ` > ` with surrounding spaces as
the claim states. -/
theorem c3_counterexample :
    locKeyOf (some "Northern Province") (some "Musanze") none
      = "Northern Province>Musanze"
    ∧ locKeyOf (some "Northern Province") (some "Musanze") none
      ≠ "Northern Province > Musanze" := by
  constructor
  · decide
  · decide

/-- C3 (amended): the location key is a pure function of the
`(province, district, sector)` tuple: only `country` and `province`
populated gives the province name alone; additionally populating
`district` gives `province>district` (bare `>` separator, no spaces); a
missing `province` gives the sentinel `Unknown`; and two events with
identical tuples derive identical keys. -/
theorem c3_location_key_derivation :
    locKeyOf (some "Northern Province") none none = "Northern Province"
    ∧ locKeyOf (some "Northern Province") (some "Musanze") none
        = "Northern Province>Musanze"
    ∧ (∀ d s : Option String, locKeyOf none d s = "Unknown")
    ∧ (∀ e1 e2 : Event, e1.province = e2.province → e1.district = e2.district →
        e1.sector = e2.sector → e1.locKey = e2.locKey) := by
  refine ⟨by decide, by decide, fun d s => rfl, fun e1 e2 h1 h2 h3 => ?_⟩
  unfold Event.locKey
  rw [h1, h2, h3]

theorem c3_location_key_derivation_witness :
    locKeyOf (some "Northern Province") none none = "Northern Province"
    ∧ evCol1.locKey = evCol2.locKey :=
  ⟨c3_location_key_derivation.1,
    c3_location_key_derivation.2.2.2 evCol1 evCol2 rfl rfl rfl⟩

/-- C5 counterexample: applying the already-applied event `evOne` a second
time to the store it produced does change the store — the triggers contain
no `event_id` deduplication. -/
theorem c5_counterexample :
    applyEvent [evOne] (applyAll [evOne]) evOne ≠ applyAll [evOne] := by
  decide

/-- C5 (amended): re-applying a `ScanEvent` is never a no-op: the trigger
path performs no `event_id` deduplication, so every application — a
re-application included — increments the affected row's `total_scans` by
exactly 1 and therefore strictly changes the aggregate state. -/
theorem c5_reapply_changes_state (log l : List Event) (e : Event) :
    locTotal (applyEvent log (applyAllR (e :: l)) e) e.locKey
      = locTotal (applyAllR (e :: l)) e.locKey + 1
    ∧ applyEvent log (applyAllR (e :: l)) e ≠ applyAllR (e :: l) := by
  refine ⟨locTotal_applyEvent log _ e, fun hEq => ?_⟩
  have h1 := locTotal_applyEvent log (applyAllR (e :: l)) e
  rw [hEq] at h1
  omega

theorem groupOf_cons_self (l : List Event) (e : Event) :
    groupOf (e :: l) e.province e.district e.sector
      = e :: groupOf l e.province e.district e.sector := by
  simp [groupOf, List.filter_cons]

/-- C10: an event whose disease label is NULL is counted exactly like a
healthy event: the incremental path increments `healthy_scans` (never
`diseased_scans`) of the affected row and leaves `disease_tracking`
untouched, and the recomputation path classifies it the same way (it
contributes to the healthy filter and is excluded from every
`disease_tracking` group). -/
theorem c10_null_label_counts_healthy (l : List Event) (e : Event)
    (hnull : e.diseaseDetected = none) :
    (applyAllR (e :: l)).dis = (applyAllR l).dis
    ∧ locHealthy (applyAllR (e :: l)) e.locKey
        = locHealthy (applyAllR l) e.locKey + 1
    ∧ locDiseased (applyAllR (e :: l)) e.locKey
        = locDiseased (applyAllR l) e.locKey
    ∧ e.isHealthy = true
    ∧ e.isDiseased = false
    ∧ (e :: l).filter Event.isDiseased = l.filter Event.isDiseased
    ∧ (recLocRow (e :: l) e.province e.district e.sector).healthyScans
        = (recLocRow l e.province e.district e.sector).healthyScans + 1
    ∧ (recLocRow (e :: l) e.province e.district e.sector).diseasedScans
        = (recLocRow l e.province e.district e.sector).diseasedScans := by
  have hh : e.isHealthy = true := by unfold Event.isHealthy; rw [hnull]
  have hd : e.isDiseased = false := by unfold Event.isDiseased; rw [hnull]
  refine ⟨?_, ?_, ?_, hh, hd, ?_, ?_, ?_⟩
  · show (applyEvent (e :: l) (applyAllR l) e).dis = (applyAllR l).dis
    simp only [applyEvent]
    rw [updateDiseaseTracking, hnull]
  · rw [show applyAllR (e :: l) = applyEvent (e :: l) (applyAllR l) e from rfl,
      locHealthy_applyEvent, hh, if_pos rfl]
  · rw [show applyAllR (e :: l) = applyEvent (e :: l) (applyAllR l) e from rfl,
      locDiseased_applyEvent, hd]
    simp
  · rw [List.filter_cons, hd]
    simp
  · unfold recLocRow
    simp only []
    rw [groupOf_cons_self, List.filter_cons, hh]
    simp
  · unfold recLocRow
    simp only []
    rw [groupOf_cons_self, List.filter_cons, hd]
    simp

theorem c10_null_label_counts_healthy_witness :
    evCol3.diseaseDetected = none
    ∧ ((applyAllR [evCol3]).dis = (applyAllR []).dis
      ∧ locHealthy (applyAllR [evCol3]) evCol3.locKey
          = locHealthy (applyAllR []) evCol3.locKey + 1
      ∧ locDiseased (applyAllR [evCol3]) evCol3.locKey
          = locDiseased (applyAllR []) evCol3.locKey
      ∧ evCol3.isHealthy = true
      ∧ evCol3.isDiseased = false
      ∧ ([evCol3] : List Event).filter Event.isDiseased
          = ([] : List Event).filter Event.isDiseased
      ∧ (recLocRow [evCol3] evCol3.province evCol3.district evCol3.sector).healthyScans
          = (recLocRow [] evCol3.province evCol3.district evCol3.sector).healthyScans + 1
      ∧ (recLocRow [evCol3] evCol3.province evCol3.district evCol3.sector).diseasedScans
          = (recLocRow [] evCol3.province evCol3.district evCol3.sector).diseasedScans) :=
  ⟨rfl, c10_null_label_counts_healthy [] evCol3 rfl⟩

theorem groupOf_cons_of_not_match (l : List Event) (e : Event)
    {p d s : Option String}
    (h : ¬(e.province = p ∧ e.district = d ∧ e.sector = s)) :
    groupOf (e :: l) p d s = groupOf l p d s := by
  simp [groupOf, List.filter_cons, h]

theorem groupOf_cons_of_match (l : List Event) (e : Event)
    {p d s : Option String}
    (h : e.province = p ∧ e.district = d ∧ e.sector = s) :
    groupOf (e :: l) p d s = e :: groupOf l p d s := by
  simp [groupOf, List.filter_cons, h]

theorem disGroupOf_cons_of_not_match (l : List Event) (e : Event)
    {p d s : Option String} {dn : String}
    (h : ¬(e.province = p ∧ e.district = d ∧ e.sector = s
      ∧ e.diseaseDetected = some dn)) :
    disGroupOf (e :: l) p d s dn = disGroupOf l p d s dn := by
  simp [disGroupOf, List.filter_cons, h]

theorem disGroupOf_cons_of_match (l : List Event) (e : Event)
    {p d s : Option String} {dn : String}
    (h : e.province = p ∧ e.district = d ∧ e.sector = s
      ∧ e.diseaseDetected = some dn) :
    disGroupOf (e :: l) p d s dn = e :: disGroupOf l p d s dn := by
  simp [disGroupOf, List.filter_cons, h]

theorem locKey_congr {e f : Event} (h1 : e.province = f.province)
    (h2 : e.district = f.district) (h3 : e.sector = f.sector) :
    e.locKey = f.locKey := by
  unfold Event.locKey
  rw [h1, h2, h3]

theorem keyInjective_tail {e : Event} {rest : List Event}
    (h : keyInjective (e :: rest)) : keyInjective rest :=
  fun a ha b hb => h a (List.mem_cons_of_mem _ ha) b (List.mem_cons_of_mem _ hb)

theorem filter_singleton_length_ite (e : Event) (p : Event → Bool) :
    (([e] : List Event).filter p).length = if p e then 1 else 0 := by
  cases h : p e <;> simp [List.filter_cons, h]

theorem applyAllR_locs_correspondence :
    ∀ l : List Event, keyInjective l →
      (∀ e ∈ l, lookupLoc (applyAllR l).locs e.locKey
          = some (recLocRow l e.province e.district e.sector))
      ∧ (∀ r ∈ (applyAllR l).locs, ∃ g ∈ l, r.locationHierarchy = g.locKey) := by
  intro l
  induction l with
  | nil =>
    intro _
    exact ⟨fun e he => absurd he (List.not_mem_nil e),
      fun r hr => absurd hr (List.not_mem_nil r)⟩
  | cons e rest ih =>
    intro hinj
    obtain ⟨ih1, ih2⟩ := ih (keyInjective_tail hinj)
    have hstep : (applyAllR (e :: rest)).locs
        = updateLocationAnalytics (e :: rest) (applyAllR rest).locs e := rfl
    have hself : lookupLoc (applyAllR (e :: rest)).locs e.locKey
        = some (recLocRow (e :: rest) e.province e.district e.sector) := by
      rw [hstep, lookupLoc_update_self]
      rcases hlk : lookupLoc (applyAllR rest).locs e.locKey with _ | r0
      · have hgem : groupOf rest e.province e.district e.sector = [] := by
          unfold groupOf
          rw [List.filter_eq_nil_iff]
          intro f hf hmatch
          rw [decide_eq_true_eq] at hmatch
          have hkey : f.locKey = e.locKey :=
            locKey_congr hmatch.1 hmatch.2.1 hmatch.2.2
          have hlf := ih1 f hf
          rw [hkey, hlk] at hlf
          cases hlf
        have hgcons : groupOf (e :: rest) e.province e.district e.sector = [e] := by
          rw [groupOf_cons_self, hgem]
        simp only [Option.elim]
        congr 1
        unfold freshLocRow recLocRow
        rw [hgcons]
        have hmax : maxCreated [e] = e.createdAt := by
          simp [maxCreated]
        rw [hmax, filter_singleton_length_ite, filter_singleton_length_ite]
        rfl
      · obtain ⟨f0, hf0mem, hf0key⟩ := ih2 r0 (List.mem_of_find?_eq_some hlk)
        have hr0key : r0.locationHierarchy = e.locKey := by
          have := List.find?_some hlk
          simpa using this
        have hfkey : f0.locKey = e.locKey := by rw [← hf0key, hr0key]
        have htup := hinj e (List.mem_cons_self e rest) f0
          (List.mem_cons_of_mem _ hf0mem) (Eq.symm hfkey)
        have hr0 : r0 = recLocRow rest e.province e.district e.sector := by
          have h1 := ih1 f0 hf0mem
          rw [hfkey, hlk] at h1
          injection h1 with h1
          rw [h1, ← htup.1, ← htup.2.1, ← htup.2.2]
        simp only [Option.elim]
        congr 1
        rw [hr0]
        unfold bumpLocRow recLocRow
        simp only []
        rw [groupOf_cons_self]
        have hhl : ((e :: groupOf rest e.province e.district e.sector).filter
            Event.isHealthy).length
            = ((groupOf rest e.province e.district e.sector).filter
                Event.isHealthy).length + (if e.isHealthy then 1 else 0) := by
          rw [List.filter_cons]
          cases h : e.isHealthy <;> simp [h]
        have hdl : ((e :: groupOf rest e.province e.district e.sector).filter
            Event.isDiseased).length
            = ((groupOf rest e.province e.district e.sector).filter
                Event.isDiseased).length + (if e.isDiseased then 1 else 0) := by
          rw [List.filter_cons]
          cases h : e.isDiseased <;> simp [h]
        have hml : maxCreated (e :: groupOf rest e.province e.district e.sector)
            = max (maxCreated (groupOf rest e.province e.district e.sector))
                e.createdAt := by
          rw [maxCreated, Nat.max_comm]
        rw [hhl, hdl, hml, List.length_cons]
    refine ⟨?_, ?_⟩
    · intro f hf
      rcases List.mem_cons.mp hf with rfl | hfr
      · exact hself
      · by_cases hfk : f.locKey = e.locKey
        · have htup := hinj f (List.mem_cons_of_mem _ hfr) e
            (List.mem_cons_self e rest) hfk
          rw [hfk, htup.1, htup.2.1, htup.2.2]
          exact hself
        · rw [hstep, lookupLoc_update_other _ _ _ hfk, ih1 f hfr]
          congr 1
          have hnm : ¬(e.province = f.province ∧ e.district = f.district
              ∧ e.sector = f.sector) := by
            intro hm
            exact hfk (Eq.symm (locKey_congr hm.1 hm.2.1 hm.2.2))
          unfold recLocRow countDistinctUsers
          rw [groupOf_cons_of_not_match rest e hnm]
    · intro r hr
      rw [hstep] at hr
      unfold updateLocationAnalytics at hr
      rcases hlk : lookupLoc (applyAllR rest).locs e.locKey with _ | r0 <;>
        rw [hlk] at hr
      · rcases List.mem_append.mp hr with hmem | hmem
        · obtain ⟨g, hg, hk⟩ := ih2 r hmem
          exact ⟨g, List.mem_cons_of_mem _ hg, hk⟩
        · rcases List.mem_singleton.mp hmem with rfl
          exact ⟨e, List.mem_cons_self e rest, rfl⟩
      · rcases List.mem_map.mp hr with ⟨r1, hr1, rfl⟩
        obtain ⟨g, hg, hk⟩ := ih2 r1 hr1
        refine ⟨g, List.mem_cons_of_mem _ hg, ?_⟩
        by_cases hcond : r1.locationHierarchy = e.locKey
        · rw [if_pos hcond, bumpLocRow_key]; exact hk
        · rw [if_neg hcond]; exact hk

theorem diseased_label {f : Event} (h : f.isDiseased = true) :
    f.diseaseDetected = some (f.diseaseDetected.getD "")
    ∧ f.diseaseDetected.getD "" ≠ "Healthy" := by
  unfold Event.isDiseased at h
  rcases hf : f.diseaseDetected with _ | s
  · rw [hf] at h; cases h
  · rw [hf] at h
    simp only [decide_eq_true_eq] at h
    constructor
    · simp [hf]
    · simpa [hf] using h

theorem diseased_of_label {f : Event} {dn : String}
    (hl : f.diseaseDetected = some dn) (hn : dn ≠ "Healthy") :
    f.isDiseased = true := by
  unfold Event.isDiseased
  rw [hl]
  simpa using hn

theorem not_diseased_label {e : Event} (h : ¬ e.isDiseased = true) :
    e.diseaseDetected = none ∨ e.diseaseDetected = some "Healthy" := by
  unfold Event.isDiseased at h
  rcases he : e.diseaseDetected with _ | s
  · exact Or.inl rfl
  · rw [he] at h
    simp only [decide_eq_true_eq, not_not] at h
    exact Or.inr (by rw [h])

theorem applyAllR_dis_correspondence :
    ∀ l : List Event, keyInjective l →
      (∀ e ∈ l, e.isDiseased = true →
        lookupDis (applyAllR l).dis e.locKey (e.diseaseDetected.getD "")
          = some (recDisRowArr l e.province e.district e.sector
              (e.diseaseDetected.getD "")))
      ∧ (∀ r ∈ (applyAllR l).dis, ∃ g ∈ l,
          r.locationHierarchy = g.locKey
          ∧ g.diseaseDetected = some r.diseaseName) := by
  intro l
  induction l with
  | nil =>
    intro _
    exact ⟨fun e he => absurd he (List.not_mem_nil e),
      fun r hr => absurd hr (List.not_mem_nil r)⟩
  | cons e rest ih =>
    intro hinj
    obtain ⟨ih1, ih2⟩ := ih (keyInjective_tail hinj)
    have hstep : (applyAllR (e :: rest)).dis
        = updateDiseaseTracking (applyAllR rest).dis e := rfl
    by_cases hdis : e.isDiseased = true
    · obtain ⟨hdsome, hdne⟩ := diseased_label hdis
      have hgmatch : e.province = e.province ∧ e.district = e.district
          ∧ e.sector = e.sector
          ∧ e.diseaseDetected = some (e.diseaseDetected.getD "") :=
        ⟨rfl, rfl, rfl, hdsome⟩
      have hself : lookupDis (applyAllR (e :: rest)).dis e.locKey
            (e.diseaseDetected.getD "")
          = some (recDisRowArr (e :: rest) e.province e.district e.sector
              (e.diseaseDetected.getD "")) := by
        rw [hstep, lookupDis_update_self _ _ _ hdsome hdne]
        rcases hlk : lookupDis (applyAllR rest).dis e.locKey
            (e.diseaseDetected.getD "") with _ | r0
        · have hgem : disGroupOf rest e.province e.district e.sector
              (e.diseaseDetected.getD "") = [] := by
            unfold disGroupOf
            rw [List.filter_eq_nil_iff]
            intro f hf hmatch
            rw [decide_eq_true_eq] at hmatch
            have hfdis : f.isDiseased = true :=
              diseased_of_label hmatch.2.2.2 hdne
            have hkey : f.locKey = e.locKey :=
              locKey_congr hmatch.1 hmatch.2.1 hmatch.2.2.1
            have hfl : f.diseaseDetected.getD "" = e.diseaseDetected.getD "" := by
              simp [hmatch.2.2.2]
            have hlf := ih1 f hf hfdis
            rw [hkey, hfl, hlk] at hlf
            cases hlf
          have hgcons : disGroupOf (e :: rest) e.province e.district e.sector
              (e.diseaseDetected.getD "") = [e] := by
            rw [disGroupOf_cons_of_match rest e hgmatch, hgem]
          simp only [Option.elim]
          congr 1
          unfold freshDisRow recDisRowArr
          rw [hgcons]
          simp [firstArrivalCreated, maxCreated, Event.locKey]
        · obtain ⟨f0, hf0mem, hf0key, hf0lbl⟩ :=
            ih2 r0 (List.mem_of_find?_eq_some hlk)
          have hr0p : r0.locationHierarchy = e.locKey
              ∧ r0.diseaseName = e.diseaseDetected.getD "" := by
            have := List.find?_some hlk
            simpa using this
          have hfkey : f0.locKey = e.locKey := by rw [← hf0key, hr0p.1]
          have hf0lbl2 : f0.diseaseDetected = some (e.diseaseDetected.getD "") := by
            rw [hf0lbl, hr0p.2]
          have hf0dis : f0.isDiseased = true := diseased_of_label hf0lbl2 hdne
          have htup := hinj e (List.mem_cons_self e rest) f0
            (List.mem_cons_of_mem _ hf0mem) (Eq.symm hfkey)
          have hf0getD : f0.diseaseDetected.getD "" = e.diseaseDetected.getD "" := by
            simp [hf0lbl2]
          have hr0 : r0 = recDisRowArr rest e.province e.district e.sector
              (e.diseaseDetected.getD "") := by
            have h1 := ih1 f0 hf0mem hf0dis
            rw [hfkey, hf0getD, hlk] at h1
            injection h1 with h1
            rw [h1, ← htup.1, ← htup.2.1, ← htup.2.2]
          have hf0grp : f0 ∈ disGroupOf rest e.province e.district e.sector
              (e.diseaseDetected.getD "") := by
            unfold disGroupOf
            rw [List.mem_filter]
            refine ⟨hf0mem, ?_⟩
            rw [decide_eq_true_eq]
            exact ⟨Eq.symm htup.1, Eq.symm htup.2.1, Eq.symm htup.2.2, hf0lbl2⟩
          have hgne : disGroupOf rest e.province e.district e.sector
              (e.diseaseDetected.getD "") ≠ [] := by
            intro hnil
            rw [hnil] at hf0grp
            exact absurd hf0grp (List.not_mem_nil f0)
          have hn0 : ((disGroupOf rest e.province e.district e.sector
              (e.diseaseDetected.getD "")).length : ℚ) ≠ 0 := by
            rw [Nat.cast_ne_zero]
            intro hz
            exact hgne (List.length_eq_zero.mp hz)
          simp only [Option.elim]
          congr 1
          rw [hr0]
          unfold bumpDisRow recDisRowArr
          simp only []
          rw [disGroupOf_cons_of_match rest e hgmatch]
          have hfa : firstArrivalCreated
              (e :: disGroupOf rest e.province e.district e.sector
                (e.diseaseDetected.getD ""))
              = firstArrivalCreated (disGroupOf rest e.province e.district
                  e.sector (e.diseaseDetected.getD "")) := by
            rcases hg : disGroupOf rest e.province e.district e.sector
                (e.diseaseDetected.getD "") with _ | ⟨x, xs⟩
            · exact absurd hg hgne
            · unfold firstArrivalCreated
              rw [List.getLast?_cons_cons]
          rw [DisRow.mk.injEq]
          refine ⟨rfl, rfl, rfl, rfl, rfl, by rw [List.length_cons], ?_,
            Eq.symm hfa, by rw [maxCreated, Nat.max_comm]⟩
          rw [div_mul_cancel₀ _ hn0, List.map_cons, List.sum_cons,
            List.length_cons]
          push_cast
          ring
      refine ⟨?_, ?_⟩
      · intro f hf hfdis
        rcases List.mem_cons.mp hf with rfl | hfr
        · exact hself
        · by_cases hpair : f.locKey = e.locKey
            ∧ f.diseaseDetected.getD "" = e.diseaseDetected.getD ""
          · have htup := hinj f (List.mem_cons_of_mem _ hfr) e
              (List.mem_cons_self e rest) hpair.1
            rw [hpair.1, hpair.2, htup.1, htup.2.1, htup.2.2]
            exact hself
          · rw [hstep, lookupDis_update_other _ _ _ hdsome hdne hpair,
              ih1 f hfr hfdis]
            congr 1
            have hnm : ¬(e.province = f.province ∧ e.district = f.district
                ∧ e.sector = f.sector
                ∧ e.diseaseDetected = some (f.diseaseDetected.getD "")) := by
              intro hm
              apply hpair
              refine ⟨Eq.symm (locKey_congr hm.1 hm.2.1 hm.2.2.1), ?_⟩
              have hx := hm.2.2.2
              rw [hdsome] at hx
              injection hx with hx
              exact Eq.symm hx
            unfold recDisRowArr
            rw [disGroupOf_cons_of_not_match rest e hnm]
      · intro r hr
        rw [hstep] at hr
        have hform : updateDiseaseTracking (applyAllR rest).dis e
            = match lookupDis (applyAllR rest).dis e.locKey
                (e.diseaseDetected.getD "") with
              | none => (applyAllR rest).dis
                  ++ [freshDisRow e (e.diseaseDetected.getD "")]
              | some _ => (applyAllR rest).dis.map fun r =>
                  if r.locationHierarchy = e.locKey
                      ∧ r.diseaseName = e.diseaseDetected.getD ""
                  then bumpDisRow e r else r := by
          rw [updateDiseaseTracking, hdsome]
          simp [hdne]
        rw [hform] at hr
        rcases hlk : lookupDis (applyAllR rest).dis e.locKey
            (e.diseaseDetected.getD "") with _ | r0 <;> rw [hlk] at hr
        · rcases List.mem_append.mp hr with hmem | hmem
          · obtain ⟨g, hg, hk, hl2⟩ := ih2 r hmem
            exact ⟨g, List.mem_cons_of_mem _ hg, hk, hl2⟩
          · rcases List.mem_singleton.mp hmem with rfl
            exact ⟨e, List.mem_cons_self e rest, rfl, hdsome⟩
        · rcases List.mem_map.mp hr with ⟨r1, hr1, rfl⟩
          obtain ⟨g, hg, hk, hl2⟩ := ih2 r1 hr1
          refine ⟨g, List.mem_cons_of_mem _ hg, ?_, ?_⟩
          · by_cases hcond : r1.locationHierarchy = e.locKey
              ∧ r1.diseaseName = e.diseaseDetected.getD ""
            · rw [if_pos hcond, bumpDisRow_key]; exact hk
            · rw [if_neg hcond]; exact hk
          · by_cases hcond : r1.locationHierarchy = e.locKey
              ∧ r1.diseaseName = e.diseaseDetected.getD ""
            · rw [if_pos hcond, bumpDisRow_name]; exact hl2
            · rw [if_neg hcond]; exact hl2
    · have hh : e.isHealthy = true := by
        have hx := isDiseased_eq_not_isHealthy e
        cases hy : e.isHealthy
        · rw [hy] at hx
          exact absurd hx (by simpa [hy] using hdis)
        · rfl
      have hunch : updateDiseaseTracking (applyAllR rest).dis e
          = (applyAllR rest).dis := updateDiseaseTracking_healthy _ _ hh
      refine ⟨?_, ?_⟩
      · intro f hf hfdis
        rcases List.mem_cons.mp hf with rfl | hfr
        · exact absurd hfdis hdis
        · obtain ⟨hfsome, hfne⟩ := diseased_label hfdis
          rw [hstep, hunch, ih1 f hfr hfdis]
          congr 1
          have hnm : ¬(e.province = f.province ∧ e.district = f.district
              ∧ e.sector = f.sector
              ∧ e.diseaseDetected = some (f.diseaseDetected.getD "")) := by
            intro hm
            exact hdis (diseased_of_label hm.2.2.2 hfne)
          unfold recDisRowArr
          rw [disGroupOf_cons_of_not_match rest e hnm]
      · intro r hr
        rw [hstep, hunch] at hr
        obtain ⟨g, hg, hk, hl2⟩ := ih2 r hr
        exact ⟨g, List.mem_cons_of_mem _ hg, hk, hl2⟩

theorem maxCreated_append (a b : List Event) :
    maxCreated (a ++ b) = max (maxCreated a) (maxCreated b) := by
  induction a with
  | nil => simp [maxCreated]
  | cons x xs ih => simp [maxCreated, ih, Nat.max_assoc]

theorem maxCreated_reverse (l : List Event) :
    maxCreated l.reverse = maxCreated l := by
  induction l with
  | nil => rfl
  | cons x xs ih =>
    rw [List.reverse_cons, maxCreated_append, ih]
    show max (maxCreated xs) (max x.createdAt (maxCreated [])) = _
    rw [maxCreated, Nat.max_zero, Nat.max_comm]
    rfl

theorem le_minCreated {c : Nat} : ∀ {l : List Event}, l ≠ [] →
    (∀ f ∈ l, c ≤ f.createdAt) → c ≤ minCreated l := by
  intro l
  induction l with
  | nil => intro h; cases h rfl
  | cons x xs ih =>
    intro _ h
    rcases xs with _ | ⟨y, ys⟩
    · exact h x (List.mem_singleton.mpr rfl)
    · rw [minCreated]
      exact le_min (h x (List.mem_cons_self _ _))
        (ih (by simp) fun f hf => h f (List.mem_cons_of_mem _ hf))

theorem minCreated_cons_sorted (x : Event) (xs : List Event)
    (hs : (x :: xs).Pairwise fun a b => a.createdAt ≤ b.createdAt) :
    minCreated (x :: xs) = x.createdAt := by
  rcases xs with _ | ⟨y, ys⟩
  · rfl
  · rw [minCreated]
    refine min_eq_left (le_minCreated (by simp) fun f hf => ?_)
    exact (List.pairwise_cons.mp hs).1 f hf

theorem firstArrival_reverse_sorted (l : List Event)
    (hs : l.Pairwise fun a b => a.createdAt ≤ b.createdAt) (hne : l ≠ []) :
    firstArrivalCreated l.reverse = minCreated l := by
  rcases l with _ | ⟨x, xs⟩
  · cases hne rfl
  · have hlast : (x :: xs).reverse.getLast? = some x := by
      rw [List.getLast?_reverse]
      rfl
    unfold firstArrivalCreated
    rw [hlast]
    exact Eq.symm (minCreated_cons_sorted x xs hs)

theorem groupOf_reverse (l : List Event) (p d s : Option String) :
    groupOf l.reverse p d s = (groupOf l p d s).reverse := by
  unfold groupOf
  rw [List.filter_reverse]

theorem disGroupOf_reverse (l : List Event) (p d s : Option String)
    (dn : String) :
    disGroupOf l.reverse p d s dn = (disGroupOf l p d s dn).reverse := by
  unfold disGroupOf
  rw [List.filter_reverse]

theorem countDistinctUsers_reverse (l : List Event) (p d s : Option String) :
    countDistinctUsers l.reverse p d s = countDistinctUsers l p d s := by
  unfold countDistinctUsers
  rw [groupOf_reverse, List.map_reverse, ← List.card_toFinset,
    ← List.card_toFinset, List.toFinset_reverse]

theorem recLocRow_reverse (l : List Event) (p d s : Option String) :
    recLocRow l.reverse p d s = recLocRow l p d s := by
  unfold recLocRow
  rw [LocRow.mk.injEq]
  refine ⟨rfl, rfl, rfl, rfl, ?_, ?_, ?_, ?_, ?_⟩
  · rw [groupOf_reverse, List.length_reverse]
  · rw [groupOf_reverse, List.filter_reverse, List.length_reverse]
  · rw [groupOf_reverse, List.filter_reverse, List.length_reverse]
  · exact countDistinctUsers_reverse l p d s
  · rw [groupOf_reverse, maxCreated_reverse]

theorem recDisRowArr_reverse_sorted (l : List Event) (p d s : Option String)
    (dn : String) (hs : sortedByArrival l)
    (hne : disGroupOf l p d s dn ≠ []) :
    recDisRowArr l.reverse p d s dn = recDisRow l p d s dn := by
  unfold recDisRowArr recDisRow
  rw [DisRow.mk.injEq]
  refine ⟨rfl, rfl, rfl, rfl, rfl, ?_, ?_, ?_, ?_⟩
  · rw [disGroupOf_reverse, List.length_reverse]
  · rw [disGroupOf_reverse, List.map_reverse, List.sum_reverse,
      List.length_reverse]
  · rw [disGroupOf_reverse]
    exact firstArrival_reverse_sorted _
      (List.Pairwise.sublist (List.filter_sublist l) hs) hne
  · rw [disGroupOf_reverse, maxCreated_reverse]

/-- C1 (amended): full recomputation agrees with incremental maintenance —
same keys and same values in every maintained field, `total_scans`,
`healthy_scans`, `diseased_scans`, `unique_users`, `last_scan_date`,
`occurrence_count`, `severity_average`, `first_detected`, `last_detected`
included — provided (a) the key derivation is injective on the location
tuples occurring in the log (no two distinct `(province, district,
sector)` tuples share a key) and (b) arrival order respects `created_at`
order.  Condition (a) is needed because recomputation groups by raw
tuple while the triggers key rows by the derived string; condition (b) is
needed because the triggers never lower `first_detected` while
recomputation takes `MIN(created_at)`. -/
theorem c1_recompute_matches_incremental (L : List Event)
    (hinj : keyInjective L) (hsort : sortedByArrival L) :
    (∀ e ∈ L, lookupLoc (applyAll L).locs e.locKey
        = some (recLocRow L e.province e.district e.sector))
    ∧ (∀ r ∈ (applyAll L).locs, ∃ g ∈ L, r.locationHierarchy = g.locKey)
    ∧ (∀ e ∈ L, e.isDiseased = true →
        lookupDis (applyAll L).dis e.locKey (e.diseaseDetected.getD "")
          = some (recDisRow L e.province e.district e.sector
              (e.diseaseDetected.getD "")))
    ∧ (∀ r ∈ (applyAll L).dis, ∃ g ∈ L,
        r.locationHierarchy = g.locKey
        ∧ g.diseaseDetected = some r.diseaseName) := by
  have hinjR : keyInjective L.reverse := fun a ha b hb =>
    hinj a (List.mem_reverse.mp ha) b (List.mem_reverse.mp hb)
  obtain ⟨hl1, hl2⟩ := applyAllR_locs_correspondence L.reverse hinjR
  obtain ⟨hd1, hd2⟩ := applyAllR_dis_correspondence L.reverse hinjR
  refine ⟨?_, ?_, ?_, ?_⟩
  · intro e he
    rw [applyAll, hl1 e (List.mem_reverse.mpr he), recLocRow_reverse]
  · intro r hr
    obtain ⟨g, hg, hk⟩ := hl2 r hr
    exact ⟨g, List.mem_reverse.mp hg, hk⟩
  · intro e he hdis
    rw [applyAll, hd1 e (List.mem_reverse.mpr he) hdis]
    congr 1
    apply recDisRowArr_reverse_sorted L e.province e.district e.sector
      (e.diseaseDetected.getD "") hsort
    intro hnil
    have hmem : e ∈ disGroupOf L e.province e.district e.sector
        (e.diseaseDetected.getD "") := by
      unfold disGroupOf
      rw [List.mem_filter]
      exact ⟨he, by
        rw [decide_eq_true_eq]
        exact ⟨rfl, rfl, rfl, (diseased_label hdis).1⟩⟩
    rw [hnil] at hmem
    exact absurd hmem (List.not_mem_nil e)
  · intro r hr
    obtain ⟨g, hg, hk, hl3⟩ := hd2 r hr
    exact ⟨g, List.mem_reverse.mp hg, hk, hl3⟩

theorem c1_recompute_matches_incremental_witness :
    keyInjective logW ∧ sortedByArrival logW
    ∧ ((∀ e ∈ logW, lookupLoc (applyAll logW).locs e.locKey
          = some (recLocRow logW e.province e.district e.sector))
      ∧ (∀ r ∈ (applyAll logW).locs, ∃ g ∈ logW,
          r.locationHierarchy = g.locKey)
      ∧ (∀ e ∈ logW, e.isDiseased = true →
          lookupDis (applyAll logW).dis e.locKey (e.diseaseDetected.getD "")
            = some (recDisRow logW e.province e.district e.sector
                (e.diseaseDetected.getD "")))
      ∧ (∀ r ∈ (applyAll logW).dis, ∃ g ∈ logW,
          r.locationHierarchy = g.locKey
          ∧ g.diseaseDetected = some r.diseaseName)) :=
  ⟨by decide, by decide,
    c1_recompute_matches_incremental logW (by decide) (by decide)⟩

/-- C1 counterexample: for the arrival-order log `logOut`, where a
diseased event with `created_at = 5` arrives before one with
`created_at = 3`, the incremental path stores `first_detected = 5` (the
first arrival's timestamp, never lowered afterwards) while the
recomputation computes `MIN(created_at) = 3`, so the stored
`disease_tracking` row differs from the recomputed row at the same key. -/
theorem c1_counterexample :
    lookupDis (applyAll logOut).dis (locKeyOf (some "P") none none) "Blight"
      ≠ some (recDisRow logOut (some "P") none none "Blight") := by
  intro h
  have h1 : (lookupDis (applyAll logOut).dis (locKeyOf (some "P") none none)
      "Blight").map DisRow.firstDetected = some 5 := by decide
  have h2 : (recDisRow logOut (some "P") none none "Blight").firstDetected
      = 3 := by decide
  rw [h] at h1
  simp only [Option.map_some'] at h1
  injection h1 with h1
  rw [h2] at h1
  exact absurd h1 (by decide)

/-- C4: applying `n` diseased scan events for the same location tuple and
disease label to an initially empty store leaves the `disease_tracking`
row with `occurrence_count = n` and `severity_average` equal to the
arithmetic mean of the scores, because the online-mean update divides by
the pre-increment `occurrence_count + 1` (a missing `confidence_score`
enters the mean as the `COALESCE` default `0.5`, via `Option.getD`). -/
theorem c4_online_mean (e0 : Event) (etl : List Event)
    (p d s : Option String) (dn : String) (hdn : dn ≠ "Healthy")
    (hall : ∀ e ∈ e0 :: etl, e.province = p ∧ e.district = d ∧ e.sector = s
      ∧ e.diseaseDetected = some dn) :
    ∃ r, lookupDis (applyAll (e0 :: etl)).dis (locKeyOf p d s) dn = some r
      ∧ r.occurrenceCount = (e0 :: etl).length
      ∧ r.severityAverage
          = ((e0 :: etl).map fun e => e.confidenceScore.getD (1 / 2)).sum
              / ((e0 :: etl).length : ℚ) := by
  have hinj : keyInjective (e0 :: etl) := by
    intro a ha b hb _
    obtain ⟨ta1, ta2, ta3, _⟩ := hall a ha
    obtain ⟨tb1, tb2, tb3, _⟩ := hall b hb
    exact ⟨ta1.trans tb1.symm, ta2.trans tb2.symm, ta3.trans tb3.symm⟩
  have hinjR : keyInjective (e0 :: etl).reverse := fun a ha b hb =>
    hinj a (List.mem_reverse.mp ha) b (List.mem_reverse.mp hb)
  obtain ⟨hd1, _⟩ := applyAllR_dis_correspondence (e0 :: etl).reverse hinjR
  obtain ⟨h0p, h0d, h0s, h0l⟩ := hall e0 (List.mem_cons_self _ _)
  have h0dis : e0.isDiseased = true := diseased_of_label h0l hdn
  have h0getD : e0.diseaseDetected.getD "" = dn := by simp [h0l]
  have h0key : e0.locKey = locKeyOf p d s := by
    unfold Event.locKey
    rw [h0p, h0d, h0s]
  have hgrp : disGroupOf (e0 :: etl).reverse p d s dn
      = (e0 :: etl).reverse := by
    unfold disGroupOf
    rw [List.filter_eq_self]
    intro a ha
    rw [decide_eq_true_eq]
    exact hall a (List.mem_reverse.mp ha)
  have hspec := hd1 e0 (List.mem_reverse.mpr (List.mem_cons_self _ _)) h0dis
  rw [h0getD, h0key] at hspec
  refine ⟨recDisRowArr (e0 :: etl).reverse e0.province e0.district e0.sector dn,
    by rw [applyAll]; exact hspec, ?_, ?_⟩
  · unfold recDisRowArr
    show (disGroupOf (e0 :: etl).reverse e0.province e0.district e0.sector
      dn).length = _
    rw [h0p, h0d, h0s, hgrp, List.length_reverse]
  · unfold recDisRowArr
    show ((disGroupOf (e0 :: etl).reverse e0.province e0.district e0.sector
        dn).map fun f => f.confidenceScore.getD (1 / 2)).sum
        / ((disGroupOf (e0 :: etl).reverse e0.province e0.district e0.sector
            dn).length : ℚ) = _
    rw [h0p, h0d, h0s, hgrp, List.map_reverse, List.sum_reverse,
      List.length_reverse]

theorem c4_online_mean_witness :
    ("Early Blight" : String) ≠ "Healthy"
    ∧ (∀ e ∈ esW, e.province = some "E" ∧ e.district = some "N"
        ∧ e.sector = none ∧ e.diseaseDetected = some "Early Blight")
    ∧ ∃ r, lookupDis (applyAll esW).dis (locKeyOf (some "E") (some "N") none)
          "Early Blight" = some r
        ∧ r.occurrenceCount = esW.length
        ∧ r.severityAverage
            = (esW.map fun e => e.confidenceScore.getD (1 / 2)).sum
                / (esW.length : ℚ) :=
  ⟨by decide, by decide,
    c4_online_mean _ _ (some "E") (some "N") none "Early Blight"
      (by decide) (by decide)⟩

/-- C6 counterexample: after the collision log `logCol`, the single row at
key `A` carries `unique_users = 1` (the distinct count for the tuple of
the most recent event, `(A, NULL, S2)`), while the distinct user count for
the row's own stored tuple `(A, NULL, S1)` is `2`. -/
theorem c6_counterexample :
    ((lookupLoc (applyAll logCol).locs "A").map LocRow.uniqueUsers) = some 1
    ∧ ((lookupLoc (applyAll logCol).locs "A").map fun r =>
        countDistinctUsers logCol r.province r.district r.sector) = some 2 := by
  constructor
  · decide
  · decide

/-- C6 (amended): after every incremental apply, the affected row's
`unique_users` equals the distinct-count query over the events whose
tuple matches the tuple of the event just applied (which is the row's
stored tuple whenever no two distinct tuples share a key) — it is
recomputed by a subquery on every update, never incremented; likewise
`refresh_location_analytics` recomputes `total_users`, the windowed
active-user distinct counts and the windowed scan counts of every row
from the event log restricted to the row's `location_string` and the
window, rather than maintaining running totals. -/
theorem c6_distinct_counts_recomputed :
    (∀ (l : List Event) (e : Event),
      ((lookupLoc (applyAllR (e :: l)).locs e.locKey).map LocRow.uniqueUsers)
        = some (countDistinctUsers (e :: l) e.province e.district e.sector))
    ∧ (∀ (log : List SEvent) (now : Nat) (rows : List SLocRow),
        ∀ r ∈ refreshLocationAnalytics log now rows,
          r.totalUsers = ((log.filter fun f =>
              decide (f.locationString = r.locationString)).map
              SEvent.userId).dedup.length
          ∧ r.activeUsers7 = ((log.filter fun f =>
              decide (f.locationString = r.locationString)
                && inWindow now week f.createdAt).map
              SEvent.userId).dedup.length
          ∧ r.activeUsers30 = ((log.filter fun f =>
              decide (f.locationString = r.locationString)
                && inWindow now month30 f.createdAt).map
              SEvent.userId).dedup.length
          ∧ r.scansLast7 = (log.filter fun f =>
              decide (f.locationString = r.locationString)
                && inWindow now week f.createdAt).length
          ∧ r.scansLast30 = (log.filter fun f =>
              decide (f.locationString = r.locationString)
                && inWindow now month30 f.createdAt).length) := by
  constructor
  · intro l e
    show ((lookupLoc (updateLocationAnalytics (e :: l) (applyAllR l).locs e)
      e.locKey).map LocRow.uniqueUsers) = _
    rw [lookupLoc_update_self]
    rcases h : lookupLoc (applyAllR l).locs e.locKey with _ | r0 <;>
      simp [h, freshLocRow, bumpLocRow]
  · intro log now rows r hr
    unfold refreshLocationAnalytics refreshPass2 at hr
    rcases List.mem_map.mp hr with ⟨r1, hr1, rfl⟩
    unfold refreshPass1 at hr1
    rcases List.mem_map.mp hr1 with ⟨r0, _, rfl⟩
    exact ⟨rfl, rfl, rfl, rfl, rfl⟩

theorem c6_distinct_counts_recomputed_witness :
    rW6 ∈ refreshLocationAnalytics [sevNew] sNow (sApplyAllR [sevNew])
    ∧ (rW6.totalUsers = (([sevNew].filter fun f =>
          decide (f.locationString = rW6.locationString)).map
          SEvent.userId).dedup.length
      ∧ rW6.activeUsers7 = (([sevNew].filter fun f =>
          decide (f.locationString = rW6.locationString)
            && inWindow sNow week f.createdAt).map
          SEvent.userId).dedup.length
      ∧ rW6.activeUsers30 = (([sevNew].filter fun f =>
          decide (f.locationString = rW6.locationString)
            && inWindow sNow month30 f.createdAt).map
          SEvent.userId).dedup.length
      ∧ rW6.scansLast7 = ([sevNew].filter fun f =>
          decide (f.locationString = rW6.locationString)
            && inWindow sNow week f.createdAt).length
      ∧ rW6.scansLast30 = ([sevNew].filter fun f =>
          decide (f.locationString = rW6.locationString)
            && inWindow sNow month30 f.createdAt).length) :=
  ⟨by decide, c6_distinct_counts_recomputed.2 [sevNew] sNow
    (sApplyAllR [sevNew]) rW6 (by decide)⟩

theorem round2_nonneg {x : ℚ} (h : 0 ≤ x) : 0 ≤ round2 x := by
  unfold round2
  apply div_nonneg _ (by norm_num)
  have hz : (0 : ℤ) ≤ ⌊x * 100 + 1 / 2⌋ := by
    apply Int.floor_nonneg.mpr
    positivity
  exact_mod_cast hz

theorem round2_le_100 {x : ℚ} (h : x ≤ 100) : round2 x ≤ 100 := by
  unfold round2
  rw [div_le_iff₀ (by norm_num : (0 : ℚ) < 100)]
  have h1 : ⌊x * 100 + 1 / 2⌋ ≤ ⌊(10000 : ℚ) + 1 / 2⌋ :=
    Int.floor_le_floor (by linarith)
  have h2 : ⌊(10000 : ℚ) + 1 / 2⌋ = 10000 := by
    rw [Int.floor_eq_iff]
    norm_num
  rw [h2] at h1
  have : ((⌊x * 100 + 1 / 2⌋ : ℤ) : ℚ) ≤ 10000 := by exact_mod_cast h1
  linarith

theorem sReachable_invariant {l : List SEvent} {st : List SLocRow}
    (h : SReachable l st) :
    ∀ r ∈ st, r.healthyScans + r.diseaseScans = r.totalScans
      ∧ 0 ≤ r.healthyPercentage ∧ r.healthyPercentage ≤ 100 := by
  induction h with
  | init => intro r hr; cases hr
  | @step l st e hprev ih =>
    intro r hr
    unfold sUpdateLocationAnalytics at hr
    rcases hlk : List.find?
        (fun r => decide (r.locationString = e.locationString)) st
      with _ | r0 <;> rw [hlk] at hr
    · rcases List.mem_append.mp hr with hmem | hmem
      · exact ih r hmem
      · rcases List.mem_singleton.mp hmem with rfl
        cases hil : ilikeHealthy e.predictedDisease <;> simp [hil]
    · rcases List.mem_map.mp hr with ⟨r1, hr1, rfl⟩
      obtain ⟨hc, hp0, hp1⟩ := ih r1 hr1
      by_cases hcond : r1.locationString = e.locationString
      · rw [if_pos hcond]
        refine ⟨?_, ?_, ?_⟩
        · show r1.healthyScans + _ + (r1.diseaseScans + _) = r1.totalScans + 1
          cases hil : ilikeHealthy e.predictedDisease <;> simp [hil] <;> omega
        · exact round2_nonneg (by positivity)
        · apply round2_le_100
          rw [div_le_iff₀ (by positivity)]
          have hle : ((r1.healthyScans
              + (if ilikeHealthy e.predictedDisease then 1 else 0) : Nat) : ℚ)
              ≤ (r1.totalScans : ℚ) + 1 := by
            have hn : r1.healthyScans
                + (if ilikeHealthy e.predictedDisease then 1 else 0)
                ≤ r1.totalScans + 1 := by
              cases hil : ilikeHealthy e.predictedDisease <;> simp [hil] <;> omega
            exact_mod_cast hn
          nlinarith
      · rw [if_neg hcond]
        exact ⟨hc, hp0, hp1⟩
  | @refresh l st now hprev ih =>
    intro r hr
    unfold refreshLocationAnalytics refreshPass2 at hr
    rcases List.mem_map.mp hr with ⟨r1, hr1, rfl⟩
    unfold refreshPass1 at hr1
    rcases List.mem_map.mp hr1 with ⟨r0, hr0, rfl⟩
    exact ih r0 hr0

theorem diseaseRate_nonneg (total diseased : Nat) :
    0 ≤ diseaseRate total diseased := by
  unfold diseaseRate
  by_cases ht : 0 < total
  · rw [if_pos ht]
    exact round2_nonneg (by positivity)
  · rw [if_neg ht]

theorem diseaseRate_le_100 {total diseased : Nat} (h : diseased ≤ total) :
    diseaseRate total diseased ≤ 100 := by
  unfold diseaseRate
  by_cases ht : 0 < total
  · rw [if_pos ht]
    apply round2_le_100
    have htq : (0 : ℚ) < (total : ℚ) := by exact_mod_cast ht
    rw [div_mul_eq_mul_div, div_le_iff₀ htq]
    have hdq : (diseased : ℚ) ≤ (total : ℚ) := by exact_mod_cast h
    nlinarith
  · rw [if_neg ht]
    norm_num

/-- C7: every reachable schema-variant row satisfies
`0 ≤ healthy_percentage ≤ 100`; for every reachable STEP 3 row the
query-time `disease_rate` satisfies `0 ≤ disease_rate ≤ 100`; and at the
`total_scans = 0` boundary `disease_rate` is defined and equal to `0`
(the division is guarded by `CASE WHEN total_scans > 0`), while a freshly
inserted row's `healthy_percentage` is its column default `0`. -/
theorem c7_percentage_bounds :
    (∀ (l : List SEvent) (st : List SLocRow), SReachable l st →
      ∀ r ∈ st, 0 ≤ r.healthyPercentage ∧ r.healthyPercentage ≤ 100)
    ∧ (∀ (l : List Event) (st : AggState), Reachable l st →
      ∀ r ∈ st.locs, 0 ≤ diseaseRate r.totalScans r.diseasedScans
        ∧ diseaseRate r.totalScans r.diseasedScans ≤ 100)
    ∧ (∀ dcount : Nat, diseaseRate 0 dcount = 0) := by
  refine ⟨fun l st h r hr => ?_, fun l st h r hr => ?_, fun dcount => rfl⟩
  · obtain ⟨_, hp0, hp1⟩ := sReachable_invariant h r hr
    exact ⟨hp0, hp1⟩
  · have hc := counts_invariant h r hr
    exact ⟨diseaseRate_nonneg _ _, diseaseRate_le_100 (by omega)⟩

theorem c7_percentage_bounds_witness :
    (rIns ∈ sUpdateLocationAnalytics [] sevNew
      ∧ 0 ≤ rIns.healthyPercentage ∧ rIns.healthyPercentage ≤ 100)
    ∧ (freshLocRow [evOne] evOne ∈ (applyEvent [evOne] emptyState evOne).locs
      ∧ 0 ≤ diseaseRate (freshLocRow [evOne] evOne).totalScans
          (freshLocRow [evOne] evOne).diseasedScans
      ∧ diseaseRate (freshLocRow [evOne] evOne).totalScans
          (freshLocRow [evOne] evOne).diseasedScans ≤ 100)
    ∧ diseaseRate 0 5 = 0 :=
  ⟨⟨by decide,
    c7_percentage_bounds.1 [sevNew] _ (SReachable.step SReachable.init)
      rIns (by decide)⟩,
   ⟨by decide,
    c7_percentage_bounds.2.1 [evOne] _ (Reachable.step Reachable.init)
      (freshLocRow [evOne] evOne) (by decide)⟩,
   c7_percentage_bounds.2.2 5⟩

/-- C8 (amended): after `refresh_location_analytics`, every row's
`growth_rate_7_days` equals `ROUND(scans_last_7_days / (total_scans -
scans_last_7_days) * 100, 2)` — the quotient rounded to two decimal
places, not the exact quotient — whenever `total_scans - scans_last_7_days
> 0`, and equals exactly `0` otherwise. -/
theorem c8_growth_rate_guarded (log : List SEvent) (now : Nat)
    (rows : List SLocRow) :
    ∀ r ∈ refreshLocationAnalytics log now rows,
      (r.scansLast7 < r.totalScans →
        r.growthRate7 = round2 ((r.scansLast7 : ℚ)
          / ((r.totalScans : ℚ) - (r.scansLast7 : ℚ)) * 100))
      ∧ (r.totalScans ≤ r.scansLast7 → r.growthRate7 = 0) := by
  intro r hr
  unfold refreshLocationAnalytics refreshPass2 at hr
  rcases List.mem_map.mp hr with ⟨r1, _, rfl⟩
  constructor
  · intro hlt
    show (if r1.scansLast7 < r1.totalScans then _ else _) = _
    rw [if_pos hlt]
  · intro hge
    have hge2 : r1.totalScans ≤ r1.scansLast7 := hge
    show (if r1.scansLast7 < r1.totalScans then _ else _) = (0 : ℚ)
    rw [if_neg (by omega)]

theorem c8_growth_rate_guarded_witness :
    rW6 ∈ refreshLocationAnalytics [sevNew] sNow (sApplyAllR [sevNew])
    ∧ rW6.totalScans ≤ rW6.scansLast7
    ∧ rW6.growthRate7 = 0 :=
  ⟨by decide, by decide,
    (c8_growth_rate_guarded [sevNew] sNow (sApplyAllR [sevNew]) rW6
      (by decide)).2 (by decide)⟩

/-- C8 counterexample: refreshing the four-scan store (one scan inside the
7-day window) stores `growth_rate_7_days = ROUND(1/3 * 100, 2) = 33.33`,
which differs from the exact quotient `1 / (4 - 1) * 100 = 100/3` the
claim asserts. -/
theorem c8_counterexample :
    ((refreshLocationAnalytics sLog4 sNow (sApplyAllR sLog4)).map
        fun r => (r.totalScans, r.scansLast7)) = [(4, 1)]
    ∧ ((refreshLocationAnalytics sLog4 sNow (sApplyAllR sLog4)).map
        SLocRow.growthRate7)
      = [round2 (((1 : Nat) : ℚ) / (((4 : Nat) : ℚ) - ((1 : Nat) : ℚ)) * 100)]
    ∧ round2 (((1 : Nat) : ℚ) / (((4 : Nat) : ℚ) - ((1 : Nat) : ℚ)) * 100)
      ≠ ((1 : Nat) : ℚ) / (((4 : Nat) : ℚ) - ((1 : Nat) : ℚ)) * 100 := by
  refine ⟨by decide, rfl, ?_⟩
  unfold round2
  push_cast
  have hf : ⌊(1 : ℚ) / (4 - 1) * 100 * 100 + 1 / 2⌋ = 3333 := by
    rw [Int.floor_eq_iff]
    norm_num
  rw [hf]
  norm_num

theorem mem_insertDesc {b r : LocRow} : ∀ {l : List LocRow},
    b ∈ insertDesc r l ↔ b = r ∨ b ∈ l := by
  intro l
  induction l with
  | nil => simp [insertDesc]
  | cons x xs ih =>
    rw [insertDesc]
    by_cases hc : x.totalScans ≤ r.totalScans
    · rw [if_pos hc]
      simp [List.mem_cons]
    · rw [if_neg hc]
      rw [List.mem_cons, ih, List.mem_cons]
      tauto

theorem sorted_insertDesc (r : LocRow) (l : List LocRow)
    (h : l.Pairwise fun a b => b.totalScans ≤ a.totalScans) :
    (insertDesc r l).Pairwise fun a b => b.totalScans ≤ a.totalScans := by
  induction l with
  | nil => simp [insertDesc]
  | cons x xs ih =>
    rw [insertDesc]
    by_cases hc : x.totalScans ≤ r.totalScans
    · rw [if_pos hc, List.pairwise_cons]
      refine ⟨?_, h⟩
      intro b hb
      rcases List.mem_cons.mp hb with rfl | hbx
      · omega
      · have := (List.pairwise_cons.mp h).1 b hbx
        omega
    · rw [if_neg hc, List.pairwise_cons]
      rw [List.pairwise_cons] at h
      refine ⟨?_, ih h.2⟩
      intro b hb
      rcases mem_insertDesc.mp hb with rfl | hbx
      · omega
      · exact h.1 b hbx

theorem sorted_sortByScansDesc (l : List LocRow) :
    (sortByScansDesc l).Pairwise fun a b => b.totalScans ≤ a.totalScans := by
  induction l with
  | nil => exact List.Pairwise.nil
  | cons x xs ih => exact sorted_insertDesc x (sortByScansDesc xs) ih

theorem mem_sortByScansDesc {b : LocRow} : ∀ {l : List LocRow},
    b ∈ sortByScansDesc l ↔ b ∈ l := by
  intro l
  induction l with
  | nil => simp [sortByScansDesc]
  | cons x xs ih =>
    rw [sortByScansDesc, mem_insertDesc, ih, List.mem_cons]

/-- C9 (amended): the leaderboard returns only rows with `total_scans >
0`, in non-increasing `total_scans` order; but the `ORDER BY` names no
secondary sort key, so rows with equal `total_scans` keep an unspecified
relative order (here: their store order) rather than ascending
LocationKey order. -/
theorem c9_leaderboard_sorted (rows : List LocRow) (limit : Nat) :
    (getLocationLeaderboard rows limit).Pairwise
      (fun a b => b.totalScans ≤ a.totalScans)
    ∧ ∀ r ∈ getLocationLeaderboard rows limit, 0 < r.totalScans := by
  constructor
  · exact List.Pairwise.sublist (List.take_sublist _ _)
      (sorted_sortByScansDesc _)
  · intro r hr
    have hmem : r ∈ sortByScansDesc
        (rows.filter fun r => decide (0 < r.totalScans)) :=
      (List.take_sublist _ _).mem hr
    have := (List.mem_filter.mp (mem_sortByScansDesc.mp hmem)).2
    simpa using this

theorem c9_leaderboard_sorted_witness :
    (getLocationLeaderboard [rowB, rowA] 10).Pairwise
      (fun a b => b.totalScans ≤ a.totalScans)
    ∧ rowB ∈ getLocationLeaderboard [rowB, rowA] 10
    ∧ 0 < rowB.totalScans :=
  ⟨(c9_leaderboard_sorted [rowB, rowA] 10).1, by decide,
    (c9_leaderboard_sorted [rowB, rowA] 10).2 rowB (by decide)⟩

/-- C9 counterexample: the two rows `rowB` (key `B`) and `rowA` (key `A`)
have equal `total_scans = 5`, yet the leaderboard returns them in store
order `B, A` — not in ascending LocationKey order: the keys differ and
`A` precedes `B` lexically (`'A' < 'B'` on their characters). -/
theorem c9_counterexample :
    (getLocationLeaderboard [rowB, rowA] 10).map LocRow.locationHierarchy
      = ["B", "A"]
    ∧ rowB.totalScans = rowA.totalScans
    ∧ ("A" : String) ≠ "B"
    ∧ ('A' : Char) < 'B' := by
  refine ⟨by decide, by decide, by decide, by decide⟩

end Agrisol
